import Mathlib

/-!
# Verification of the x402 service-discovery core (src/server.py)

A shallow embedding of the deterministic logic of the x402 discovery MCP
server: the filter/score/rank pipeline of `x402_discover`, the catalog
listing of `x402_browse`, the registration normalization of `x402_register`
and the attestation-token decoding of `x402_attest`.  Network transport
(httpx), the MCP framework and the remote backend are external collaborators
and are not modelled; catalog records and decoded JSON values are modelled
as typed data carrying exactly the fields the embedded logic reads.

Python-specific behaviour that the logic depends on is embedded explicitly:
`dict.get` with a default becomes `Option.getD`, `float(...)` becomes a
partial conversion returning `Option Rat` (an exception is `none`),
lower-casing and substring tests of ASCII text are modelled on `List Char`,
and `base64.urlsafe_b64decode` is modelled after CPython's non-strict
`binascii.a2b_base64` loop (invalid characters discarded, excess padding
accepted).  Python's stable `list.sort(key=...)` is modelled by a stable
insertion sort.
-/

/-! ## Python string primitives -/

/-- Lower-casing of one character as Python `str.lower` acts on ASCII;
the catalog fields handled by the server are ASCII text. -/
def pyLowerChar (c : Char) : Char :=
  if 'A' ≤ c ∧ c ≤ 'Z' then Char.ofNat (c.toNat + 32) else c

/-- Python `str.lower` on the character list of a string. -/
def pyLower (s : List Char) : List Char := s.map pyLowerChar

/-- Does `hay` start with `needle`? (helper for the substring test). -/
def listStartsWith : List Char → List Char → Bool
  | [], _ => true
  | _ :: _, [] => false
  | c :: cs, h :: hs => c == h && listStartsWith cs hs

/-- Python's substring operator `needle in hay`. -/
def pyIn (needle : List Char) : List Char → Bool
  | [] => needle.isEmpty
  | h :: hs => listStartsWith needle (h :: hs) || pyIn needle hs

/-- Helper of `pySplit`: accumulates the current segment (reversed). -/
def pySplitAux (sep : Char) : List Char → List Char → List (List Char)
  | [], acc => [acc.reverse]
  | c :: rest, acc =>
    if c = sep then acc.reverse :: pySplitAux sep rest []
    else pySplitAux sep rest (c :: acc)

/-- Python `str.split(sep)` for a one-character separator:
`pySplit sep "" = [""]` and empty segments are kept, as in Python. -/
def pySplit (sep : Char) (s : List Char) : List (List Char) := pySplitAux sep s []

/-- Python `str.strip()`: drop leading and trailing whitespace. -/
def pyStrip (s : List Char) : List Char :=
  ((s.dropWhile Char.isWhitespace).reverse.dropWhile Char.isWhitespace).reverse

/-- Helper of `parseDecimal`: consume leading digits, returning the
accumulated value, the number of digits consumed and the rest. -/
def readDigits : List Char → Nat → Nat → Nat × Nat × List Char
  | [], acc, k => (acc, k, [])
  | c :: rest, acc, k =>
    if c.isDigit then readDigits rest (acc * 10 + (c.toNat - 48)) (k + 1)
    else (acc, k, c :: rest)

/-- Python `float(string)` on plain decimal literals: an optional sign,
digits, an optional fraction.  Scientific notation, `inf`/`nan` and
surrounding whitespace are outside what the embedded logic exercises;
any string outside this grammar yields `none` (a `ValueError`). -/
def parseDecimal (s : List Char) : Option Rat :=
  let signed : Rat × List Char :=
    match s with
    | '-' :: r => (-1, r)
    | '+' :: r => (1, r)
    | _ => (1, s)
  let (n, k1, r1) := readDigits signed.2 0 0
  match r1 with
  | [] => if k1 = 0 then none else some (signed.1 * n)
  | '.' :: r2 =>
    let (m, k2, r3) := readDigits r2 0 0
    if r3 = [] ∧ 0 < k1 + k2 then some (signed.1 * ((n : Rat) + (m : Rat) / (10 ^ k2)))
    else none
  | _ => none

/-! ## The catalog data model (src/server.py reads these fields) -/

/-- A JSON scalar as it can appear in the `price_per_call` field of a raw
catalog record.  Containers carry no payload because `float` raises a
`TypeError` on them regardless of content. -/
inductive JVal where
  | num (q : Rat)
  | str (s : String)
  | bool (b : Bool)
  | null
  | arr
  | obj
deriving DecidableEq

/-- Python `float(value)` on a JSON scalar: numbers pass through, strings
are parsed as decimals, booleans coerce, everything else raises
(modelled as `none`). -/
def pyFloat : JVal → Option Rat
  | .num q => some q
  | .str s => parseDecimal s.data
  | .bool b => some (if b then 1 else 0)
  | .null => none
  | .arr => none
  | .obj => none

/-- A raw catalog record with the fields `x402_discover`/`x402_browse`
read (`s.get(...)`): a missing key is `none`.  `name`, `description`,
`quality_tier`, `capability_tags` and `category` are typed as the spec's
data model types them; `price_per_call` stays a raw JSON scalar because the
code converts it with `float(...)`, which can fail.  `category` is carried
because the spec's capability rule mentions it; the source of
`x402_discover` never reads it. -/
structure ServiceRecord where
  name : Option String
  description : Option String
  quality_tier : Option String
  price_per_call : Option JVal
  capability_tags : Option (List String)
  category : Option String
deriving DecidableEq

/-- The dict `quality_order = {gold 0, silver 1, bronze 2, unverified 3}`
looked up with `dict.get(key, default)` (src/server.py line 93). -/
def qualityOrderGet (tier : String) (default : Nat) : Nat :=
  if tier = "gold" then 0
  else if tier = "silver" then 1
  else if tier = "bronze" then 2
  else if tier = "unverified" then 3
  else default

/-- The expression `quality_order.get(s.get("quality_tier", "unverified"), 3)`
used both in the filter (line 97) and in the sort key (line 115) and in
`x402_browse` (line 184). -/
def recordQualityRank (s : ServiceRecord) : Nat :=
  qualityOrderGet (s.quality_tier.getD "unverified") 3

/-! ## x402_discover: filter (src/server.py lines 92-99) -/

/-- One record's filter condition (lines 96-98):
`quality_order.get(..., 3) <= min_q and float(s.get("price_per_call", 999)) <= max_price_usd`.
Python's `and` short-circuits, so `float` (which can raise, `none`) is only
evaluated when the quality test passes. -/
def recordPasses (s : ServiceRecord) (min_q : Nat) (max_price_usd : Rat) : Option Bool :=
  if recordQualityRank s ≤ min_q then
    (pyFloat (s.price_per_call.getD (.num 999))).map (fun p => decide (p ≤ max_price_usd))
  else some false

/-- A list comprehension whose predicate can raise: the first exception
aborts the whole comprehension (`none`). -/
def optFilter (p : α → Option Bool) : List α → Option (List α)
  | [] => some []
  | x :: xs =>
    match p x with
    | none => none
    | some b => (optFilter p xs).map (fun r => if b then x :: r else r)

/-- The filter step of `x402_discover` (lines 93-99), with
`min_q = quality_order.get(min_quality, 3)`. -/
def x402DiscoverFilter (services : List ServiceRecord) (min_quality : String)
    (max_price_usd : Rat) : Option (List ServiceRecord) :=
  optFilter (fun s => recordPasses s (qualityOrderGet min_quality 3) max_price_usd) services

/-! ## x402_discover: scorer (src/server.py lines 101-113) -/

/-- The score accumulation of lines 105-111: `+3` for a query hit in the
name, `+2` for a hit in the description, `+5` when `capability` is truthy
(a non-empty string) and a member of `capability_tags`. -/
def scoreRecord (s : ServiceRecord) (query : String) (capability : Option String) : Nat :=
  let q := pyLower query.data
  let sc1 := if pyIn q (pyLower (s.name.getD "").data) then 0 + 3 else 0
  let sc2 := if pyIn q (pyLower (s.description.getD "").data) then sc1 + 2 else sc1
  match capability with
  | some c => if c ≠ "" ∧ (s.capability_tags.getD []).contains c = true then sc2 + 5 else sc2
  | none => sc2

/-- Line 112: `if score > 0 or not query` — a zero-score record is kept
only when the query string is empty (falsy). -/
def keepScored (sc : Nat) (query : String) : Bool := decide (0 < sc) || query == ""

/-- The scored list of lines 103-113, in catalog iteration order. -/
def buildScored (services : List ServiceRecord) (query : String)
    (capability : Option String) : List (Nat × ServiceRecord) :=
  services.filterMap fun s =>
    let sc := scoreRecord s query capability
    if keepScored sc query then some (sc, s) else none

/-! ## x402_discover: ranker (src/server.py lines 115-116) -/

/-- The sort key of line 115: `(-score, quality rank)`. -/
def sortKey (x : Nat × ServiceRecord) : Int × Nat :=
  (-(x.1 : Int), recordQualityRank x.2)

/-- Non-strict lexicographic order on sort keys (ascending, as Python
sorts). -/
def keyLe (a b : Int × Nat) : Bool :=
  decide (a.1 < b.1 ∨ (a.1 = b.1 ∧ a.2 ≤ b.2))

/-- The comparison `x402_discover` sorts by. -/
def scoredLeB (a b : Nat × ServiceRecord) : Bool := keyLe (sortKey a) (sortKey b)

/-- Insert into a sorted list, after every element whose key is not
strictly greater: with a total preorder `le` this is the insertion step of
a stable sort. -/
def insertSorted (le : α → α → Bool) (a : α) : List α → List α
  | [] => [a]
  | b :: l => if le a b then a :: b :: l else b :: insertSorted le a l

/-- Stable sort, modelling Python `list.sort(key=...)`: ascending in `le`,
ties keep input order. -/
def stableSortBy (le : α → α → Bool) : List α → List α
  | [] => []
  | a :: l => insertSorted le a (stableSortBy le l)

/-- Lines 115-116: sort by `(-score, quality rank)` and keep the first 5. -/
def topFive (scored : List (Nat × ServiceRecord)) : List (Nat × ServiceRecord) :=
  (stableSortBy scoredLeB scored).take 5

/-- The whole deterministic pipeline of `x402_discover` on a fetched
catalog (lines 90-116), up to the score/record pairs the rendering then
walks (`none` = an uncaught exception inside the tool body). -/
def x402DiscoverTop (services : List ServiceRecord) (query : String)
    (capability : Option String) (max_price_usd : Rat) (min_quality : String) :
    Option (List (Nat × ServiceRecord)) :=
  (x402DiscoverFilter services min_quality max_price_usd).map fun fs =>
    topFive (buildScored fs query capability)

/-! ## x402_browse (src/server.py lines 177-199) -/

/-- The comparison `x402_browse` sorts the catalog by (line 184). -/
def browseLeB (a b : ServiceRecord) : Bool :=
  decide (recordQualityRank a ≤ recordQualityRank b)

/-- Lines 184 and 190: sort ascending by quality rank, list `services[:20]`. -/
def x402BrowseListed (services : List ServiceRecord) : List ServiceRecord :=
  (stableSortBy browseLeB services).take 20

/-- Lines 198-199: when the reported total exceeds 20, a trailing note
names how many more services exist (`total - 20`). -/
def x402BrowseNote (total : Nat) : Option Nat :=
  if 20 < total then some (total - 20) else none

/-! ## x402_register (src/server.py lines 244-301) -/

/-- Line 267: `[t.strip() for t in capability_tags.split(",") if t.strip()]`. -/
def pySplitTags (capability_tags : String) : List String :=
  (pySplit ',' capability_tags.data).filterMap fun t =>
    let t2 := pyStrip t
    if t2.isEmpty then none else some (String.mk t2)

/-- The JSON body `x402_register` builds for `POST /register`
(lines 268-280). -/
structure RegistrationPayload where
  name : String
  endpoint_url : String
  description : String
  price_per_call : Rat
  capability_tags : List String
  provider_wallet : String
  network : String
  payment_token : String
  pricing_model : String
  agent_callable : Bool
  auth_required : Bool
deriving DecidableEq

/-- Result type of the local normalization step of `x402_register`.  The
`validationError` constructor exists so the spec's rejection contract is
statable; the source never takes it. -/
inductive RegisterOutcome where
  | payload (p : RegistrationPayload)
  | validationError (msg : String)
deriving DecidableEq

/-- Everything `x402_register` computes before contacting the backend
(lines 267-280): tag normalization and payload assembly.  The source
performs no field validation. -/
def x402RegisterNormalize (name endpoint_url description : String)
    (price_per_call : Rat) (capability_tags wallet_address network : String) :
    RegisterOutcome :=
  .payload
    { name := name
      endpoint_url := endpoint_url
      description := description
      price_per_call := price_per_call
      capability_tags := pySplitTags capability_tags
      provider_wallet := wallet_address
      network := network
      payment_token := "USDC"
      pricing_model := "flat"
      agent_callable := true
      auth_required := false }

/-! ## x402_attest: token decoding (src/server.py lines 326-404) -/

/-- The base64 value of one character, with the URL-safe translation
`urlsafe_b64decode` applies first built in: `-`/`+` are 62, `_`/`/` are 63. -/
def b64Val (c : Char) : Option Nat :=
  if 'A' ≤ c ∧ c ≤ 'Z' then some (c.toNat - 65)
  else if 'a' ≤ c ∧ c ≤ 'z' then some (c.toNat - 97 + 26)
  else if '0' ≤ c ∧ c ≤ '9' then some (c.toNat - 48 + 52)
  else if c = '-' ∨ c = '+' then some 62
  else if c = '_' ∨ c = '/' then some 63
  else none

/-- CPython's non-strict `binascii.a2b_base64` loop (what
`base64.urlsafe_b64decode` calls): bytes are emitted eagerly as each quad
fills; a pad character completes a quad of 2 or 3 data characters and ends
decoding (data after it is ignored); stray pads and invalid characters are
discarded; a leftover quad position of 1 at the end is an error, any other
leftover without enough padding is an "incorrect padding" error (`none`).
State: remaining input, quad position, carried bits, pads seen, output
(reversed). -/
def a2bBase64 : List Char → Nat → Nat → Nat → List Nat → Option (List Nat)
  | [], quadPos, _, _, out => if quadPos = 0 then some out.reverse else none
  | c :: rest, quadPos, leftchar, pads, out =>
    if c = '=' then
      if 2 ≤ quadPos ∧ 4 ≤ quadPos + pads + 1 then some out.reverse
      else if 2 ≤ quadPos then a2bBase64 rest quadPos leftchar (pads + 1) out
      else a2bBase64 rest quadPos leftchar pads out
    else
      match b64Val c with
      | none => a2bBase64 rest quadPos leftchar pads out
      | some v =>
        match quadPos with
        | 0 => a2bBase64 rest 1 v 0 out
        | 1 => a2bBase64 rest 2 (v % 16) 0 ((leftchar * 4 + v / 16) :: out)
        | 2 => a2bBase64 rest 3 (v % 4) 0 ((leftchar * 16 + v / 4) :: out)
        | _ => a2bBase64 rest 0 0 0 ((leftchar * 64 + v) :: out)

/-- Python `base64.urlsafe_b64decode` on a character list, yielding the
decoded bytes (`none` = `binascii.Error`). -/
def pyUrlsafeB64decode (s : List Char) : Option (List Nat) := a2bBase64 s 0 0 0 []

/-- Lines 352-354 of `x402_attest`: `parts = jwt_str.split(".")`, then
`urlsafe_b64decode(parts[1] + "==")`.  A token without a second segment
raises an `IndexError` (`none`). -/
def x402AttestDecodeBytes (token : List Char) : Option (List Nat) :=
  match (pySplit '.' token)[1]? with
  | none => none
  | some seg => pyUrlsafeB64decode (seg ++ ['=', '='])

/-- Modelled from the spec (section 4.4 wording of the decoding procedure):
right-pad the payload segment with pad characters until its length is a
multiple of 4, then base64url-decode.  Stated for comparison with
`x402AttestDecodeBytes`, whose source appends exactly two pad characters. -/
def specPadDecode (seg : List Char) : Option (List Nat) :=
  pyUrlsafeB64decode (seg ++ List.replicate ((4 - seg.length % 4) % 4) '=')

/-- A decoded JSON value, as `json.loads` yields it. -/
inductive Js where
  | null
  | bool (b : Bool)
  | num (q : Rat)
  | str (s : String)
  | arr (l : List Js)
  | obj (kvs : List (String × Js))

/-- Python `value.get(key, default)`: only a dict has `.get`; on anything
else the attribute access raises (`none`). -/
def jsGet (j : Js) (k : String) (d : Js) : Option Js :=
  match j with
  | .obj kvs => some ((kvs.lookup k).getD d)
  | _ => none

/-- Python truthiness of a decoded JSON value. -/
def jsTruthy : Js → Bool
  | .null => false
  | .bool b => b
  | .num q => decide (q ≠ 0)
  | .str s => decide (s ≠ "")
  | .arr l => !l.isEmpty
  | .obj kvs => !kvs.isEmpty

/-- Decimal text of a rational, for interpolating decoded numbers into the
report (exact Python float formatting is outside the spec's scope). -/
def ratText (q : Rat) : String :=
  if q.den = 1 then toString q.num else toString q.num ++ "/" ++ toString q.den

/-- Python `str(value)` of a decoded JSON value as the f-strings of the
report use it; container rendering is schematic (no claim inspects it). -/
def jsToText : Js → String
  | .null => "None"
  | .bool true => "True"
  | .bool false => "False"
  | .num q => ratText q
  | .str s => s
  | .arr _ => "<list>"
  | .obj _ => "<dict>"

/-- The chain-verification lines (src/server.py lines 378-382): skipped
when `chainVerifications` is falsy; otherwise each element must be a dict
(iterating anything whose items lack `.get` raises, `none`). -/
def chainLines (chain : Js) : Option (List String)  :=
  if jsTruthy chain then
    match chain with
    | .arr l =>
      (l.mapM fun cv => do
        let p ← jsGet cv "provider" (.str "?")
        let e ← jsGet cv "error" (.str "ok")
        pure ("  • " ++ jsToText p ++ ": " ++ jsToText e)).map
          (fun ls => "" :: ("Chain Verifications (" ++ toString l.length ++ " provider(s)):") :: ls)
    | _ => none
  else some []

/-- The quality lines of the report (src/server.py lines 365-370): the
`try` block of `x402_attest` reads each field with `quality.get(...)`,
which raises when `quality` is not a dict (`none`); a missing key falls
back to the code's default.  `renderAttestRich` below assembles the whole
summary; `none` anywhere models an exception inside the `try` block. -/
def qualityBlock (quality : Js) : Option (List String) := do
  let health ← jsGet quality "health_status" (.str "?")
  let uptime ← jsGet quality "uptime_pct" (.str "?")
  let latency ← jsGet quality "avg_latency_ms" (.str "?")
  let succChecks ← jsGet quality "successful_checks" (.str "?")
  let totalChecks ← jsGet quality "total_checks" (.str "?")
  let lastChecked ← jsGet quality "last_checked" (.str "?")
  pure
    [ "Quality Measurements (signed):"
    , "  Health:   " ++ jsToText health
    , "  Uptime:   " ++ jsToText uptime ++ "%"
    , "  Latency:  " ++ jsToText latency ++ "ms avg"
    , "  Checks:   " ++ jsToText succChecks ++ "/" ++ jsToText totalChecks ++ " successful"
    , "  Last:     " ++ jsToText lastChecked ]

/-- The facilitator lines of the report (src/server.py lines 372-375),
with the code's defaults for missing keys. -/
def facilitatorBlock (facilitator : Js) : Option (List String) := do
  let compatible ← jsGet facilitator "compatible" (.bool false)
  let count ← jsGet facilitator "count" (.num 0)
  let recommended ← jsGet facilitator "recommended" (.str "none")
  pure
    [ "Facilitator Compatibility:"
    , "  Compatible: " ++ jsToText compatible
    , "  Count:      " ++ jsToText count
    , "  Recommended: " ++ jsToText recommended ]

/-- The trailing lines of the report (src/server.py lines 384-394). -/
def attestTailBlock (issued_at verify_at spec_url : String) (expiry : Js) : List String :=
  [ ""
  , "Issued:  " ++ issued_at
  , "Expires: " ++ jsToText expiry ++ " (unix) — valid 24h"
  , ""
  , "Verify signature: GET " ++ verify_at
  , "Spec: " ++ spec_url
  , ""
  , "Raw JWT (for embedding in coldStartSignals):" ]

/-- Assembly of the whole summary text from the decoded payload. -/
def renderAttestRich (service_name service_id issued_at verify_at spec_url : String)
    (payload : Js) (jwt : List Char) : Option (List Char) := do
  let quality ← jsGet payload "quality" (.obj [])
  let facilitator ← jsGet payload "facilitator" (.obj [])
  let _service ← jsGet payload "service" (.obj [])
  let chain ← jsGet payload "chainVerifications" (.arr [])
  let qLines ← qualityBlock quality
  let fLines ← facilitatorBlock facilitator
  let chLines ← chainLines chain
  let expiry ← jsGet payload "exp" (.str "?")
  let lines : List String :=
    [ "✅ Attestation for: " ++ service_name
    , "Service ID: " ++ service_id
    , "" ]
    ++ qLines ++ [""] ++ fLines ++ chLines
    ++ attestTailBlock issued_at verify_at spec_url expiry
  pure ((String.intercalate "\n" lines).data ++ '\n' :: (jwt.take 120) ++ "...".data)

/-- The `except` fallback of the decode block (lines 397-404): a reduced
report that ends with the raw token. -/
def attestFallback (service_id issued_at verify_at : String) (jwt : List Char) : List Char :=
  ("Attestation issued for: " ++ service_id ++ "\nIssued: " ++ issued_at
    ++ "\nVerify: " ++ verify_at ++ "\nJWT: ").data ++ jwt

/-- The decode pipeline up to the structured payload: split, pad, base64,
then `json.loads` (supplied as `parse`, the one external library step). -/
def x402AttestPayload (parse : List Nat → Option Js) (token : List Char) : Option Js :=
  (x402AttestDecodeBytes token).bind parse

/-- The text `x402_attest` returns for `raw=False` (lines 349-404): the
rich summary when the whole `try` block succeeds, the fallback report
otherwise. -/
def x402AttestText (parse : List Nat → Option Js)
    (service_name service_id issued_at verify_at spec_url : String)
    (jwt : List Char) : List Char :=
  match (x402AttestPayload parse jwt).bind
      (fun payload => renderAttestRich service_name service_id issued_at verify_at spec_url payload jwt) with
  | some text => text
  | none => attestFallback service_id issued_at verify_at jwt

/-! ## Lemmas about the stable sort -/

theorem length_insertSorted (le : α → α → Bool) (a : α) (l : List α) :
    (insertSorted le a l).length = l.length + 1 := by
  induction l with
  | nil => rfl
  | cons b t ih => simp only [insertSorted]; split <;> simp [ih]

theorem length_stableSortBy (le : α → α → Bool) (l : List α) :
    (stableSortBy le l).length = l.length := by
  induction l with
  | nil => rfl
  | cons a t ih => simp [stableSortBy, length_insertSorted, ih]

theorem mem_insertSorted (le : α → α → Bool) (a x : α) (l : List α) :
    x ∈ insertSorted le a l ↔ x = a ∨ x ∈ l := by
  induction l with
  | nil => simp [insertSorted]
  | cons b t ih =>
    simp only [insertSorted]
    split
    · simp [List.mem_cons]
    · simp [List.mem_cons, ih]
      tauto

theorem pairwise_insertSorted (le : α → α → Bool)
    (htot : ∀ a b, le a b = true ∨ le b a = true)
    (htrans : ∀ a b c, le a b = true → le b c = true → le a c = true)
    (a : α) (l : List α) (h : l.Pairwise fun x y => le x y = true) :
    (insertSorted le a l).Pairwise fun x y => le x y = true := by
  induction l with
  | nil => simp [insertSorted]
  | cons b t ih =>
    simp only [insertSorted]
    rcases List.pairwise_cons.mp h with ⟨hb, ht⟩
    split
    next hab =>
      refine List.pairwise_cons.mpr ⟨?_, h⟩
      intro x hx
      rcases List.mem_cons.mp hx with rfl | hx2
      · exact hab
      · exact htrans a b x hab (hb x hx2)
    next hab =>
      have hba : le b a = true := (htot a b).resolve_left hab
      refine List.pairwise_cons.mpr ⟨?_, ih ht⟩
      intro x hx
      rcases (mem_insertSorted le a x t).mp hx with rfl | hx2
      · exact hba
      · exact hb x hx2

theorem pairwise_stableSortBy (le : α → α → Bool)
    (htot : ∀ a b, le a b = true ∨ le b a = true)
    (htrans : ∀ a b c, le a b = true → le b c = true → le a c = true)
    (l : List α) :
    (stableSortBy le l).Pairwise fun x y => le x y = true := by
  induction l with
  | nil => simp [stableSortBy]
  | cons a t ih => exact pairwise_insertSorted le htot htrans a _ ih

theorem filter_insertSorted (le : α → α → Bool) (p : α → Bool)
    (hp : ∀ x y, p x = true → p y = true → le x y = true)
    (a : α) (l : List α) :
    (insertSorted le a l).filter p = if p a then a :: l.filter p else l.filter p := by
  induction l with
  | nil => cases hpa : p a <;> simp [insertSorted, List.filter, hpa]
  | cons b t ih =>
    simp only [insertSorted]
    split
    next hab =>
      rw [List.filter_cons]
    next hab =>
      by_cases hpa : p a = true
      · by_cases hpb : p b = true
        · exact absurd (hp a b hpa hpb) hab
        · simp only [List.filter_cons, ih, hpa, hpb]
          simp [hpb]
      · simp only [List.filter_cons, ih, hpa]
        simp [hpa]

theorem filter_stableSortBy (le : α → α → Bool) (p : α → Bool)
    (hp : ∀ x y, p x = true → p y = true → le x y = true)
    (l : List α) :
    (stableSortBy le l).filter p = l.filter p := by
  induction l with
  | nil => rfl
  | cons a t ih =>
    simp only [stableSortBy]
    rw [filter_insertSorted le p hp a _, ih, List.filter_cons]

/-! ## Lemmas about the sort keys -/

theorem keyLe_refl (c : Int × Nat) : keyLe c c = true := by
  rcases c with ⟨x, y⟩
  simp [keyLe]

theorem keyLe_total (a b : Int × Nat) : keyLe a b = true ∨ keyLe b a = true := by
  rcases a with ⟨ax, ay⟩
  rcases b with ⟨bx, By⟩
  simp only [keyLe, decide_eq_true_eq]
  omega

theorem keyLe_trans (a b c : Int × Nat) (h1 : keyLe a b = true) (h2 : keyLe b c = true) :
    keyLe a c = true := by
  rcases a with ⟨ax, ay⟩
  rcases b with ⟨bx, By⟩
  rcases c with ⟨cx, cy⟩
  simp only [keyLe, decide_eq_true_eq] at h1 h2 ⊢
  omega

theorem scoredLeB_total (a b : Nat × ServiceRecord) :
    scoredLeB a b = true ∨ scoredLeB b a = true := keyLe_total _ _

theorem scoredLeB_trans (a b c : Nat × ServiceRecord)
    (h1 : scoredLeB a b = true) (h2 : scoredLeB b c = true) : scoredLeB a c = true :=
  keyLe_trans _ _ _ h1 h2

theorem browseLeB_total (a b : ServiceRecord) :
    browseLeB a b = true ∨ browseLeB b a = true := by
  simp only [browseLeB, decide_eq_true_eq]
  omega

theorem browseLeB_trans (a b c : ServiceRecord)
    (h1 : browseLeB a b = true) (h2 : browseLeB b c = true) : browseLeB a c = true := by
  simp only [browseLeB, decide_eq_true_eq] at h1 h2 ⊢
  omega

/-! ## Lemmas about the filter -/

theorem optFilter_mem (p : α → Option Bool) :
    ∀ (l out : List α), optFilter p l = some out → ∀ x ∈ out, p x = some true := by
  intro l
  induction l with
  | nil =>
    intro out h x hx
    simp only [optFilter, Option.some.injEq] at h
    subst h
    simp at hx
  | cons a t ih =>
    intro out h x hx
    simp only [optFilter] at h
    rcases hpa : p a with _ | b <;> rw [hpa] at h
    · simp at h
    · rcases hr : optFilter p t with _ | r <;> rw [hr] at h
      · simp at h
      · simp only [Option.map_some', Option.some.injEq] at h
        subst h
        rcases b with _ | _
        · simp only [Bool.false_eq_true, if_false] at hx
          exact ih r hr x hx
        · simp only [if_true] at hx
          rcases List.mem_cons.mp hx with rfl | hx2
          · exact hpa
          · exact ih r hr x hx2

theorem recordPasses_true (s : ServiceRecord) (min_q : Nat) (maxP : Rat)
    (h : recordPasses s min_q maxP = some true) :
    recordQualityRank s ≤ min_q ∧
      ∃ p, pyFloat (s.price_per_call.getD (.num 999)) = some p ∧ p ≤ maxP := by
  unfold recordPasses at h
  split at h
  next hq =>
    rcases hf : pyFloat (s.price_per_call.getD (.num 999)) with _ | p <;> rw [hf] at h
    · simp at h
    · simp only [Option.map_some', Option.some.injEq] at h
      exact ⟨hq, p, rfl, of_decide_eq_true h⟩
  next hq => simp at h

theorem qualityRank_le_three (t : String) : qualityOrderGet t 3 ≤ 3 := by
  unfold qualityOrderGet
  repeat' split
  all_goals omega

/-! ## Claim C1: the price and quality filter rules -/

/-- C1: for every catalog record list and criteria, every record in the
filtered output of `x402_discover` has `float(price_per_call) <= max_price_usd`
(a record with a missing price carries the sentinel 999 and so is excluded
unless the ceiling is at least 999) and a quality rank at most the rank of
`min_quality` under the map gold 0, silver 1, bronze 2, unverified 3, with
a missing tier defaulting to unverified. -/
theorem C1_filter_price_quality (services : List ServiceRecord) (min_quality : String)
    (max_price_usd : Rat) (out : List ServiceRecord)
    (h : x402DiscoverFilter services min_quality max_price_usd = some out) :
    ∀ s ∈ out,
      ((∃ p, pyFloat (s.price_per_call.getD (.num 999)) = some p ∧ p ≤ max_price_usd) ∧
        (s.price_per_call = none → (999 : Rat) ≤ max_price_usd)) ∧
      qualityOrderGet (s.quality_tier.getD "unverified") 3 ≤ qualityOrderGet min_quality 3 := by
  intro s hs
  have hp := optFilter_mem _ _ _ h s hs
  have hres := recordPasses_true s _ _ hp
  refine ⟨⟨hres.2, ?_⟩, hres.1⟩
  intro hnone
  rcases hres.2 with ⟨p, hpf, hple⟩
  rw [hnone] at hpf
  simp only [Option.getD, pyFloat, Option.some.injEq] at hpf
  rw [← hpf] at hple
  exact hple

/-- Concrete instance of C1: a gold record priced 1 passes a ceiling of 2
and the conclusions of `C1_filter_price_quality` hold for it. -/
def w1rec : ServiceRecord :=
  { name := some "A", description := some "d", quality_tier := some "gold",
    price_per_call := some (.num 1), capability_tags := some ["x"], category := none }

theorem C1_witness :
    x402DiscoverFilter [w1rec] "unverified" 2 = some [w1rec] ∧
    (((∃ p, pyFloat (w1rec.price_per_call.getD (.num 999)) = some p ∧ p ≤ 2) ∧
        (w1rec.price_per_call = none → (999 : Rat) ≤ 2)) ∧
      qualityOrderGet (w1rec.quality_tier.getD "unverified") 3 ≤
        qualityOrderGet "unverified" 3) :=
  ⟨by decide,
    C1_filter_price_quality [w1rec] "unverified" 2 [w1rec] (by decide) w1rec (by decide)⟩

/-! ## Claim C9: unknown quality strings -/

/-- C9: a `min_quality` outside the four known tiers maps to rank 3 (the
same as `unverified`), so the quality rule passes every record and the
filter degenerates to the price test alone; an unrecognized record tier is
likewise ranked 3 both where the filter and where the sort key read it. -/
theorem C9_unknown_quality_permissive (min_quality : String)
    (hmq : min_quality ∉ (["gold", "silver", "bronze", "unverified"] : List String)) :
    qualityOrderGet min_quality 3 = 3 ∧
    qualityOrderGet min_quality 3 = qualityOrderGet "unverified" 3 ∧
    (∀ s : ServiceRecord, recordQualityRank s ≤ qualityOrderGet min_quality 3) ∧
    (∀ (tier : String) (n : Nat) (s : ServiceRecord),
        tier ∉ (["gold", "silver", "bronze", "unverified"] : List String) →
        s.quality_tier = some tier →
        recordQualityRank s = 3 ∧ sortKey (n, s) = (-(n : Int), 3)) ∧
    (∀ (s : ServiceRecord) (maxP : Rat),
        recordPasses s (qualityOrderGet min_quality 3) maxP =
          (pyFloat (s.price_per_call.getD (.num 999))).map (fun p => decide (p ≤ maxP))) := by
  simp only [List.mem_cons, List.not_mem_nil, or_false, not_or] at hmq
  obtain ⟨h1, h2, h3, h4⟩ := hmq
  have hq3 : qualityOrderGet min_quality 3 = 3 := by
    simp [qualityOrderGet, h1, h2, h3, h4]
  refine ⟨hq3, by rw [hq3]; decide, ?_, ?_, ?_⟩
  · intro s
    rw [hq3]
    exact qualityRank_le_three _
  · intro tier n s htier hst
    simp only [List.mem_cons, List.not_mem_nil, or_false, not_or] at htier
    obtain ⟨g1, g2, g3, g4⟩ := htier
    have : recordQualityRank s = 3 := by
      simp [recordQualityRank, hst, qualityOrderGet, g1, g2, g3, g4]
    exact ⟨this, by simp [sortKey, this]⟩
  · intro s maxP
    rw [hq3]
    unfold recordPasses
    exact if_pos (qualityRank_le_three _)

theorem C9_witness :
    qualityOrderGet "platinum" 3 = 3 ∧
    qualityOrderGet "platinum" 3 = qualityOrderGet "unverified" 3 :=
  ⟨(C9_unknown_quality_permissive "platinum" (by decide)).1,
    (C9_unknown_quality_permissive "platinum" (by decide)).2.1⟩

/-! ## Claim C10: the browse listing -/

/-- C10: `x402_browse` lists at most 20 services (exactly `min 20 n` of
them), in ascending quality-rank order (gold first, unknown tiers ranked
3 like unverified and so last), and appends a "more services" note naming
`total - 20` exactly when the reported total exceeds 20. -/
theorem C10_browse_listing (services : List ServiceRecord) (total : Nat) :
    (x402BrowseListed services).length = min 20 services.length ∧
    (x402BrowseListed services).Pairwise
      (fun a b => recordQualityRank a ≤ recordQualityRank b) ∧
    (20 < total → x402BrowseNote total = some (total - 20)) ∧
    (total ≤ 20 → x402BrowseNote total = none) := by
  refine ⟨?_, ?_, ?_, ?_⟩
  · simp [x402BrowseListed, List.length_take, length_stableSortBy]
  · have hs := pairwise_stableSortBy browseLeB browseLeB_total browseLeB_trans services
    have ht := hs.sublist (List.take_sublist 20 _)
    exact ht.imp fun h => by
      simpa only [browseLeB, decide_eq_true_eq] using h
  · intro h
    simp [x402BrowseNote, h]
  · intro h
    rw [x402BrowseNote, if_neg (by omega)]

theorem C10_witness :
    (x402BrowseListed []).length = min 20 ([] : List ServiceRecord).length ∧
    x402BrowseNote 25 = some 5 :=
  ⟨(C10_browse_listing [] 25).1, (C10_browse_listing [] 25).2.2.1 (by omega)⟩

/-! ## Claim C3: the ranker -/

/-- C3: for every scored list, the ranked result has length
`min 5 (number of scored records)`, its scores are non-increasing with
quality rank non-decreasing among equal scores, and records with equal
score and equal quality tier keep their original iteration order (the
key-equal subsequence of the output is a prefix of the input's). -/
theorem C3_ranker_top5 (scored : List (Nat × ServiceRecord)) :
    (topFive scored).length = min 5 scored.length ∧
    (topFive scored).Pairwise (fun a b =>
        b.1 ≤ a.1 ∧ (a.1 = b.1 → recordQualityRank a.2 ≤ recordQualityRank b.2)) ∧
    ∀ (c : Nat) (t : Option String),
      (topFive scored).filter (fun x => decide (x.1 = c ∧ x.2.quality_tier = t)) <+:
        scored.filter (fun x => decide (x.1 = c ∧ x.2.quality_tier = t)) := by
  refine ⟨?_, ?_, ?_⟩
  · simp [topFive, List.length_take, length_stableSortBy]
  · have hs := pairwise_stableSortBy scoredLeB scoredLeB_total scoredLeB_trans scored
    have ht := hs.sublist (List.take_sublist 5 _)
    refine ht.imp fun {a b} h => ?_
    simp only [scoredLeB, keyLe, sortKey, decide_eq_true_eq] at h
    constructor
    · rcases h with h | ⟨h, _⟩ <;> omega
    · intro he
      rcases h with h | ⟨_, h2⟩
      · omega
      · exact h2
  · intro c t
    have hp : ∀ x y : Nat × ServiceRecord,
        decide (x.1 = c ∧ x.2.quality_tier = t) = true →
        decide (y.1 = c ∧ y.2.quality_tier = t) = true → scoredLeB x y = true := by
      intro x y hx hy
      simp only [decide_eq_true_eq] at hx hy
      have hk : sortKey x = sortKey y := by
        simp [sortKey, recordQualityRank, hx.1, hy.1, hx.2, hy.2]
      simp only [scoredLeB, hk]
      exact keyLe_refl _
    have h1 := List.IsPrefix.filter (fun x => decide (x.1 = c ∧ x.2.quality_tier = t))
      (List.take_prefix 5 (stableSortBy scoredLeB scored))
    rw [filter_stableSortBy scoredLeB _ hp scored] at h1
    exact h1

theorem C3_witness : (topFive [(3, w1rec)]).length = min 5 [(3, w1rec)].length :=
  (C3_ranker_top5 [(3, w1rec)]).1

/-! ## Claim C4: the score formula and the zero-score gate -/

theorem pyIn_nil (l : List Char) : pyIn [] l = true := by
  cases l <;> simp [pyIn, listStartsWith, List.isEmpty]

/-- The capability bonus of src/server.py lines 110-111, as the claimed
sum formula words it: +5 when a truthy capability is a member of
`capability_tags`, else 0. -/
def capBonus (s : ServiceRecord) (capability : Option String) : Nat :=
  match capability with
  | some c => if c ≠ "" ∧ (s.capability_tags.getD []).contains c = true then 5 else 0
  | none => 0

/-- C4: the score equals 3 (query in lower-cased name) plus 2 (query in
lower-cased description) plus 5 (capability truthy and in
`capability_tags`), and a record with score 0 passes the eligibility gate
of line 112 exactly when the query is the empty string (an empty query
scores at least 3+2, so both sides are then vacuous). -/
theorem C4_score_formula (s : ServiceRecord) (query : String) (capability : Option String) :
    scoreRecord s query capability =
      (if pyIn (pyLower query.data) (pyLower (s.name.getD "").data) then 3 else 0) +
      (if pyIn (pyLower query.data) (pyLower (s.description.getD "").data) then 2 else 0) +
      capBonus s capability ∧
    (scoreRecord s query capability = 0 →
      ((keepScored (scoreRecord s query capability) query = true) ↔ query = "")) := by
  have hformula : scoreRecord s query capability =
      (if pyIn (pyLower query.data) (pyLower (s.name.getD "").data) then 3 else 0) +
      (if pyIn (pyLower query.data) (pyLower (s.description.getD "").data) then 2 else 0) +
      capBonus s capability := by
    cases capability with
    | none =>
      simp only [scoreRecord, capBonus]
      split_ifs <;> omega
    | some c =>
      simp only [scoreRecord, capBonus]
      split_ifs <;> omega
  refine ⟨hformula, ?_⟩
  intro h0
  rw [h0]
  constructor
  · intro hk
    have hb : (query == "") = true := by simpa [keepScored] using hk
    exact eq_of_beq hb
  · intro hq
    exfalso
    subst hq
    have hn : pyIn (pyLower (String.data "")) (pyLower (s.name.getD "").data) = true :=
      pyIn_nil _
    rw [hformula, if_pos hn] at h0
    simp [Nat.add_eq_zero] at h0

/-- Concrete instance for C4: a record scoring 0 against the query "zzz". -/
def w4rec : ServiceRecord :=
  { name := some "Alpha", description := some "Beta", quality_tier := none,
    price_per_call := none, capability_tags := none, category := none }

theorem C4_witness :
    scoreRecord w4rec "zzz" none = 0 ∧
      ((keepScored (scoreRecord w4rec "zzz" none) "zzz" = true) ↔ "zzz" = "") :=
  ⟨by decide, (C4_score_formula w4rec "zzz" none).2 (by decide)⟩

/-! ## Claim C2: capability is a score boost, not a filter -/

/-- A record that carries the capability neither as a tag nor as its
category, yet matches the query in name and description. -/
def c2Record : ServiceRecord :=
  { name := some "Deep Research Tool", description := some "does research",
    quality_tier := some "gold", price_per_call := some (.num 0),
    capability_tags := some ["data"], category := some "other" }

/-- C2 counterexample: with `capability = "research"` this record, which
has the capability neither in `capability_tags` nor as `category`, still
appears in the output of `x402_discover` (the local code never filters on
capability; it only scores on it). -/
theorem C2_counterexample :
    x402DiscoverTop [c2Record] "research" (some "research") 1 "unverified" =
      some [(5, c2Record)] ∧
    "research" ∉ c2Record.capability_tags.getD [] ∧
    c2Record.category ≠ some "research" := by decide

/-- C2 as the code has it: the capability contributes exactly +5 to the
score when it is truthy and a member of `capability_tags` (the record's
`category` is never consulted), and it never excludes a record: any record
passing the eligibility gate enters the scored set with its score. -/
theorem C2_capability_scores_not_filters (s : ServiceRecord) (query : String)
    (c : String) (x : Option String) :
    (c ≠ "" → (s.capability_tags.getD []).contains c = true →
        scoreRecord s query (some c) = scoreRecord s query none + 5) ∧
    ((s.capability_tags.getD []).contains c = false →
        scoreRecord s query (some c) = scoreRecord s query none) ∧
    scoreRecord { s with category := x } query (some c) = scoreRecord s query (some c) ∧
    (∀ (services : List ServiceRecord), s ∈ services →
        keepScored (scoreRecord s query (some c)) query = true →
        (scoreRecord s query (some c), s) ∈ buildScored services query (some c)) := by
  refine ⟨?_, ?_, ?_, ?_⟩
  · intro hc hm
    simp only [scoreRecord]
    rw [if_pos ⟨hc, hm⟩]
  · intro hm
    simp only [scoreRecord]
    rw [if_neg fun hcc => absurd (hcc.2.symm.trans hm) (by decide)]
  · rfl
  · intro services hmem hk
    unfold buildScored
    refine List.mem_filterMap.mpr ⟨s, hmem, ?_⟩
    simp only [hk, if_true]

/-- Concrete instance for the amended C2: a matching tag adds 5. -/
def c2wRec : ServiceRecord :=
  { name := some "N", description := some "D", quality_tier := none,
    price_per_call := none, capability_tags := some ["research"], category := none }

theorem C2_amended_witness :
    scoreRecord c2wRec "q" (some "research") = scoreRecord c2wRec "q" none + 5 :=
  (C2_capability_scores_not_filters c2wRec "q" "research" none).1 (by decide) (by decide)

/-! ## Claim C5: registration performs no local validation -/

/-- The payload the source builds from an invalid submission (empty name,
negative price, no usable tag). -/
def c5Payload : RegistrationPayload :=
  { name := "", endpoint_url := "https://e.example", description := "d",
    price_per_call := -1, capability_tags := [], provider_wallet := "0xabc",
    network := "base", payment_token := "USDC", pricing_model := "flat",
    agent_callable := true, auth_required := false }

/-- C5 counterexample: a submission with an empty name (and a negative
price and no non-empty tag) is not rejected with a `ValidationError`:
`x402_register` normalizes it into a payload for the backend unchanged. -/
theorem C5_counterexample :
    x402RegisterNormalize "" "https://e.example" "d" (-1) " , " "0xabc" "base" =
      .payload c5Payload := by decide

/-- C5 as the code has it: `x402_register` performs no local validation —
every submission (any name, any price) becomes a payload that is sent to
the backend — while tag normalization works as stated: the tag string is
split on commas, each entry stripped, empty entries dropped, and
"research" yields exactly ["research"]. -/
theorem C5_no_local_validation (name endpoint_url description : String) (price : Rat)
    (tags wallet network : String) :
    (∃ p, x402RegisterNormalize name endpoint_url description price tags wallet network =
        .payload p ∧ p.name = name ∧ p.price_per_call = price ∧
        p.capability_tags = pySplitTags tags) ∧
    pySplitTags "research" = ["research"] ∧
    (∀ t ∈ pySplitTags tags, ∃ seg ∈ pySplit ',' tags.data,
        t = String.mk (pyStrip seg) ∧ (pyStrip seg).isEmpty = false) := by
  refine ⟨⟨_, rfl, rfl, rfl, rfl⟩, by decide, ?_⟩
  intro t ht
  unfold pySplitTags at ht
  rcases List.mem_filterMap.mp ht with ⟨seg, hseg, hf⟩
  simp only at hf
  split at hf
  · exact absurd hf (by simp)
  · next he =>
    refine ⟨seg, hseg, ?_, ?_⟩
    · exact (Option.some.injEq _ _ ▸ hf).symm
    · simpa using he

theorem C5_amended_witness : pySplitTags "research" = ["research"] :=
  (C5_no_local_validation "" "" "" 0 "" "" "").2.1

/-! ## Claim C8: a malformed price raises out of the tool -/

/-- A catalog record whose `price_per_call` is the string "abc": Python's
`float("abc")` raises `ValueError` at src/server.py line 98, outside the
`try` block of lines 79-88. -/
def c8Record : ServiceRecord :=
  { name := some "Svc", description := some "", quality_tier := some "gold",
    price_per_call := some (.str "abc"), capability_tags := some [],
    category := none }

/-- C8: on a catalog record whose price is not parseable as a number, the
filter of `x402_discover` raises (the whole pipeline is `none`) instead of
the tool returning text: the `float` call sits outside any `try`. -/
theorem C8_price_parse_raises :
    x402DiscoverFilter [c8Record] "unverified" 1 = none ∧
    x402DiscoverTop [c8Record] "svc" none 1 "unverified" = none := by decide

/-! ## Lemmas about the base64 decode loop -/

/-- Running the decoder through a block of valid data characters reaches a
unique state whose quad position advances by the block's length mod 4,
uniformly in whatever input follows. -/
theorem a2b_append_state :
    ∀ (s : List Char), (∀ c ∈ s, (b64Val c).isSome = true) →
      ∀ (qp lc : Nat) (out : List Nat), qp < 4 →
        ∃ qp2 lc2 out2, qp2 < 4 ∧ qp2 = (qp + s.length) % 4 ∧
          ∀ t, a2bBase64 (s ++ t) qp lc 0 out = a2bBase64 t qp2 lc2 0 out2 := by
  intro s
  induction s with
  | nil =>
    intro _ qp lc out hqp
    exact ⟨qp, lc, out, hqp, by simp [Nat.mod_eq_of_lt hqp], fun t => rfl⟩
  | cons c cs ih =>
    intro hs qp lc out hqp
    have hc : (b64Val c).isSome = true := hs c (List.mem_cons_self c cs)
    have hcs : ∀ x ∈ cs, (b64Val x).isSome = true :=
      fun x hx => hs x (List.mem_cons_of_mem c hx)
    have hne : ¬(c = '=') := by
      intro he
      rw [he] at hc
      exact absurd hc (by decide)
    rcases hv : b64Val c with _ | v
    · rw [hv] at hc
      exact absurd hc (by simp)
    interval_cases qp
    · obtain ⟨qp2, lc2, out2, h1, h2, H⟩ := ih hcs 1 v out (by omega)
      refine ⟨qp2, lc2, out2, h1, ?_, ?_⟩
      · simp only [List.length_cons]
        omega
      · intro t
        rw [List.cons_append]
        have hstep : a2bBase64 (c :: (cs ++ t)) 0 lc 0 out =
            a2bBase64 (cs ++ t) 1 v 0 out := by
          simp [a2bBase64, hne, hv]
        rw [hstep]
        exact H t
    · obtain ⟨qp2, lc2, out2, h1, h2, H⟩ := ih hcs 2 (v % 16) ((lc * 4 + v / 16) :: out) (by omega)
      refine ⟨qp2, lc2, out2, h1, ?_, ?_⟩
      · simp only [List.length_cons]
        omega
      · intro t
        rw [List.cons_append]
        have hstep : a2bBase64 (c :: (cs ++ t)) 1 lc 0 out =
            a2bBase64 (cs ++ t) 2 (v % 16) 0 ((lc * 4 + v / 16) :: out) := by
          simp [a2bBase64, hne, hv]
        rw [hstep]
        exact H t
    · obtain ⟨qp2, lc2, out2, h1, h2, H⟩ := ih hcs 3 (v % 4) ((lc * 16 + v / 4) :: out) (by omega)
      refine ⟨qp2, lc2, out2, h1, ?_, ?_⟩
      · simp only [List.length_cons]
        omega
      · intro t
        rw [List.cons_append]
        have hstep : a2bBase64 (c :: (cs ++ t)) 2 lc 0 out =
            a2bBase64 (cs ++ t) 3 (v % 4) 0 ((lc * 16 + v / 4) :: out) := by
          simp [a2bBase64, hne, hv]
        rw [hstep]
        exact H t
    · obtain ⟨qp2, lc2, out2, h1, h2, H⟩ := ih hcs 0 0 ((lc * 64 + v) :: out) (by omega)
      refine ⟨qp2, lc2, out2, h1, ?_, ?_⟩
      · simp only [List.length_cons]
        omega
      · intro t
        rw [List.cons_append]
        have hstep : a2bBase64 (c :: (cs ++ t)) 3 lc 0 out =
            a2bBase64 (cs ++ t) 0 0 0 ((lc * 64 + v) :: out) := by
          simp [a2bBase64, hne, hv]
        rw [hstep]
        exact H t

/-- The tail the source appends: two pad characters complete any quad
position other than 1 (position 0: both pads are stray and ignored;
position 2 or 3: the pads finish the quad). -/
theorem a2b_two_pads (qp lc : Nat) (out : List Nat) (hqp : qp < 4) :
    a2bBase64 ['=', '='] qp lc 0 out = if qp = 1 then none else some out.reverse := by
  interval_cases qp <;> simp [a2bBase64]

/-- The tail the spec words describe: pad to a multiple of 4; it succeeds
and fails in exactly the same states as the source's two-pad tail. -/
theorem a2b_pad_to4 (qp lc : Nat) (out : List Nat) (hqp : qp < 4) :
    a2bBase64 (List.replicate ((4 - qp) % 4) '=') qp lc 0 out =
      if qp = 1 then none else some out.reverse := by
  interval_cases qp <;> simp [a2bBase64, List.replicate]

/-- On any all-alphabet segment the source's decode (append two pads)
computes exactly the spec's decode (pad to a multiple of 4). -/
theorem codeDecode_eq_specPadDecode (seg : List Char)
    (hseg : ∀ c ∈ seg, (b64Val c).isSome = true) :
    pyUrlsafeB64decode (seg ++ ['=', '=']) = specPadDecode seg := by
  obtain ⟨qp2, lc2, out2, hlt, heq, H⟩ := a2b_append_state seg hseg 0 0 [] (by omega)
  unfold specPadDecode pyUrlsafeB64decode
  rw [H ['=', '='], H (List.replicate ((4 - seg.length % 4) % 4) '=')]
  rw [a2b_two_pads qp2 lc2 out2 hlt]
  have hcount : (4 - seg.length % 4) % 4 = (4 - qp2) % 4 := by omega
  rw [hcount, a2b_pad_to4 qp2 lc2 out2 hlt]

/-- On any all-alphabet segment whose length is not 1 mod 4 the source's
decode succeeds. -/
theorem codeDecode_some (seg : List Char)
    (hseg : ∀ c ∈ seg, (b64Val c).isSome = true) (h1 : seg.length % 4 ≠ 1) :
    ∃ bs, pyUrlsafeB64decode (seg ++ ['=', '=']) = some bs := by
  obtain ⟨qp2, lc2, out2, hlt, heq, H⟩ := a2b_append_state seg hseg 0 0 [] (by omega)
  unfold pyUrlsafeB64decode
  rw [H ['=', '='], a2b_two_pads qp2 lc2 out2 hlt, if_neg (by omega)]
  exact ⟨out2.reverse, rfl⟩

/-! ## Lemmas about the dot split -/

theorem pySplitAux_no_sep (sep : Char) :
    ∀ (h rest acc : List Char), sep ∉ h →
      pySplitAux sep (h ++ sep :: rest) acc = (acc.reverse ++ h) :: pySplitAux sep rest [] := by
  intro h
  induction h with
  | nil =>
    intro rest acc _
    simp [pySplitAux]
  | cons c cs ih =>
    intro rest acc hne
    simp only [List.mem_cons, not_or] at hne
    have h1 : ¬(c = sep) := fun he => hne.1 he.symm
    show pySplitAux sep (c :: (cs ++ sep :: rest)) acc = _
    rw [show pySplitAux sep (c :: (cs ++ sep :: rest)) acc =
        pySplitAux sep (cs ++ sep :: rest) (c :: acc) from by
      simp [pySplitAux, h1]]
    rw [ih rest (c :: acc) hne.2]
    simp

theorem no_dot_of_b64 (seg : List Char)
    (hseg : ∀ c ∈ seg, (b64Val c).isSome = true) : '.' ∉ seg :=
  fun hmem => absurd (hseg '.' hmem) (by decide)

/-- The source's `jwt_str.split(".")[1]` on a three-segment token whose
header and payload are dot-free picks out the payload segment. -/
theorem x402AttestDecodeBytes_parts (hdr seg sig : List Char)
    (hh : '.' ∉ hdr) (hs : '.' ∉ seg) :
    x402AttestDecodeBytes (hdr ++ '.' :: seg ++ '.' :: sig) =
      pyUrlsafeB64decode (seg ++ ['=', '=']) := by
  unfold x402AttestDecodeBytes pySplit
  rw [List.append_assoc, List.cons_append]
  rw [pySplitAux_no_sep '.' hdr (seg ++ '.' :: sig) [] hh]
  rw [pySplitAux_no_sep '.' seg sig [] hs]
  simp

/-! ## Claim C6: the attestation decoding procedure -/

/-- C6: the decode step of `x402_attest` takes the second dot-separated
segment of the token and base64url-decodes it; its actual padding (append
exactly two pad characters and decode leniently) computes the same bytes
as the spec's stated right-pad-to-a-multiple-of-4 procedure on every
alphabet-only segment, and every such segment of valid base64url length
(not 1 mod 4) that parses as JSON decodes successfully through the whole
pipeline. -/
theorem C6_attest_decode (seg : List Char)
    (hseg : ∀ c ∈ seg, (b64Val c).isSome = true) :
    pyUrlsafeB64decode (seg ++ ['=', '=']) = specPadDecode seg ∧
    (seg.length % 4 ≠ 1 → ∃ bs, specPadDecode seg = some bs) ∧
    (∀ hdr sig : List Char, '.' ∉ hdr →
      x402AttestDecodeBytes (hdr ++ '.' :: seg ++ '.' :: sig) = specPadDecode seg) ∧
    (∀ (hdr sig : List Char) (parse : List Nat → Option Js) (bs : List Nat) (j : Js),
      '.' ∉ hdr → specPadDecode seg = some bs → parse bs = some j →
      x402AttestPayload parse (hdr ++ '.' :: seg ++ '.' :: sig) = some j) := by
  have hmain := codeDecode_eq_specPadDecode seg hseg
  have hparts : ∀ hdr sig : List Char, '.' ∉ hdr →
      x402AttestDecodeBytes (hdr ++ '.' :: seg ++ '.' :: sig) = specPadDecode seg := by
    intro hdr sig hh
    rw [x402AttestDecodeBytes_parts hdr seg sig hh (no_dot_of_b64 seg hseg)]
    exact hmain
  refine ⟨hmain, ?_, hparts, ?_⟩
  · intro h1
    rw [← hmain]
    exact codeDecode_some seg hseg h1
  · intro hdr sig parse bs j hh hbs hj
    unfold x402AttestPayload
    rw [hparts hdr sig hh, hbs]
    exact hj

/-- A parse function recognizing the bytes of the JSON text of an empty
object, as decoded from the payload segment "e30". -/
def c6parse : List Nat → Option Js :=
  fun bs => if bs = [123, 125] then some (.obj []) else none

theorem C6_witness :
    x402AttestPayload c6parse ("hh".data ++ '.' :: "e30".data ++ '.' :: "ss".data) =
      some (.obj []) :=
  (C6_attest_decode "e30".data (by decide)).2.2.2 "hh".data "ss".data c6parse [123, 125]
    (.obj []) (by decide) (by decide) (by rfl)

/-! ## Claim C7: decode failures fall back without raising -/

/-- C7: whenever the payload segment is malformed (no second segment, not
valid base64url, or not JSON — that is, the decode-and-parse pipeline
fails), `x402_attest` returns the reduced fallback report, which contains
the raw token; the embedding is a total function, mirroring that the
`except` clause keeps any decode exception from escaping the tool. -/
theorem C7_decode_fallback (parse : List Nat → Option Js)
    (service_name service_id issued_at verify_at spec_url : String) (jwt : List Char)
    (h : (x402AttestDecodeBytes jwt).bind parse = none) :
    x402AttestText parse service_name service_id issued_at verify_at spec_url jwt =
      attestFallback service_id issued_at verify_at jwt ∧
    jwt <:+: attestFallback service_id issued_at verify_at jwt := by
  constructor
  · unfold x402AttestText x402AttestPayload
    rw [h]
    rfl
  · exact ⟨("Attestation issued for: " ++ service_id ++ "\nIssued: " ++ issued_at
      ++ "\nVerify: " ++ verify_at ++ "\nJWT: ").data, [], by simp [attestFallback]⟩

theorem C7_witness :
    x402AttestText (fun _ => none) "n" "sid" "ia" "va" "sp" "x".data =
      attestFallback "sid" "ia" "va" "x".data ∧
    "x".data <:+: attestFallback "sid" "ia" "va" "x".data :=
  C7_decode_fallback (fun _ => none) "n" "sid" "ia" "va" "sp" "x".data (by rfl)
